import Mathlib

/-!
Verification of the operation-registry `Agent`
(`packages/apollo-server-plugin-operation-registry/src/agent.ts`).

The agent periodically fetches an operation manifest and reconciles a
key-value cache (keys `"apq:" ++ signature`) against it.  This file is a
shallow embedding of the agent's reconciler (`updateManifest`), fetcher
(`tryUpdate`), scheduler (`checkForUpdate`, `start`, `stop`) and
constructor validation, together with theorems about the claims of the
specification.

Cache mutations are modelled as an explicit trace of `set`/`delete`
calls (the code fires them against an external `KeyValueCache`
collaborator); agent state is passed explicitly.  JavaScript `Set` and
`Map` are modelled as insertion-ordered lists, which matches their
iteration order.
-/

namespace OperationRegistry

/-- `getCacheKey` / `cacheKey` from the source: the cache key for a
signature is the signature under the `"apq:"` namespace
(`agent.ts` of the engine variant, line 29: `apq:${signature}`). -/
def getCacheKey (signature : String) : String := "apq:" ++ signature

/-- One manifest entry (`interface Operation` in `agent.ts`). -/
structure Operation where
  signature : String
  document : String
deriving Repr, DecidableEq

/-- `interface OperationManifest`.  `operations : Option _` models the
`Array.isArray(manifest.operations)` check: `none` stands for an absent
or non-sequence `operations` field. -/
structure OperationManifest where
  version : Int
  operations : Option (List Operation)
deriving Repr, DecidableEq

/-- A single call issued against the external `KeyValueCache`. -/
inductive CacheOp where
  | set (key value : String)
  | del (key : String)
deriving Repr, DecidableEq

/-- The key a cache call touches. -/
def CacheOp.key : CacheOp → String
  | .set k _ => k
  | .del k => k

/-- `SignatureStore = Set<string>`: a JavaScript `Set` is modelled as an
insertion-ordered duplicate-free list. -/
abbrev SignatureStore := List String

/-- `Set.prototype.add`: append unless already present. -/
def storeAdd (s : SignatureStore) (x : String) : SignatureStore :=
  if x ∈ s then s else s ++ [x]

/-- `Map.prototype.set`: update in place when the key exists (keeping the
insertion position), append otherwise. -/
def mapSet (m : List (String × String)) (k v : String) : List (String × String) :=
  if k ∈ m.map Prod.fst then
    m.map (fun p => if p.1 = k then (k, v) else p)
  else m ++ [(k, v)]

/-- The first loop of `updateManifest` (`agent.ts` lines 249-263): walk
`manifest.operations`, populate `incomingOperations` and
`replacementSignatures`, and `cache.set` each signature that is not in
`lastOperationSignatures`.  Returns the final map, the final replacement
set, and the emitted cache calls in order. -/
def processIncoming (last : SignatureStore) :
    List Operation → List (String × String) → SignatureStore →
      List (String × String) × SignatureStore × List CacheOp
  | [], incoming, repl => (incoming, repl, [])
  | op :: rest, incoming, repl =>
    let tail := processIncoming last rest (mapSet incoming op.signature op.document)
      (storeAdd repl op.signature)
    (tail.1, tail.2.1,
      (if op.signature ∈ last then [] else
        [CacheOp.set (getCacheKey op.signature) op.document]) ++ tail.2.2)

/-- The cache `set` calls of the first loop, in order: one per occurrence
of an operation whose signature is not in `lastOperationSignatures`. -/
def addTrace (last : SignatureStore) : List Operation → List CacheOp
  | [] => []
  | op :: rest =>
    (if op.signature ∈ last then [] else
      [CacheOp.set (getCacheKey op.signature) op.document]) ++ addTrace last rest

/-- The `replacementSignatures` set built by the first loop. -/
def replOf : List Operation → SignatureStore → SignatureStore
  | [], repl => repl
  | op :: rest, repl => replOf rest (storeAdd repl op.signature)

/-- The cache `delete` calls of the second loop (`agent.ts` lines
267-273): one per previously-known signature absent from the incoming
map. -/
def delTrace (last : SignatureStore) (ops : List Operation) : List CacheOp :=
  last.filterMap fun s =>
    if s ∈ ops.map Operation.signature then none
    else some (CacheOp.del (getCacheKey s))

/-- `Agent.updateManifest` (`agent.ts` lines 237-279).  Input: the
current `lastOperationSignatures` and the manifest; output: either the
`"Invalid manifest format."` error (version `!== 1`, or `operations` not
a sequence) or the new `lastOperationSignatures` together with the trace
of cache calls issued, in order. -/
def updateManifest (last : SignatureStore) :
    OperationManifest → Except String (SignatureStore × List CacheOp)
  | ⟨_, none⟩ => Except.error "Invalid manifest format."
  | ⟨v, some ops⟩ =>
    if v = 1 then
      Except.ok ((processIncoming last ops [] []).2.1,
        (processIncoming last ops [] []).2.2 ++ last.filterMap (fun s =>
          if s ∈ (processIncoming last ops [] []).1.map Prod.fst then none
          else some (CacheOp.del (getCacheKey s))))
    else Except.error "Invalid manifest format."

/-- The signatures of a manifest, in order of appearance. -/
def manifestSignatures (m : OperationManifest) : List String :=
  (m.operations.getD []).map Operation.signature

/-- Semantics of one cache call on a cache modelled as a partial map. -/
def applyOp (cache : String → Option String) : CacheOp → String → Option String
  | CacheOp.set k v => fun q => if q = k then some v else cache q
  | CacheOp.del k => fun q => if q = k then none else cache q

/-- Semantics of a trace of cache calls, applied left to right. -/
def applyTrace (cache : String → Option String) : List CacheOp → String → Option String
  | [] => cache
  | op :: rest => applyTrace (applyOp cache op) rest

/-- The cache a freshly constructed agent writes into, restricted to the
`"apq:"` namespace it is the sole writer of: initially empty. -/
def emptyCache : String → Option String := fun _ => none

/-! ## Fetcher (`Agent.tryUpdate`, `agent.ts` lines 133-203) -/

/-- The agent fields `tryUpdate` reads or writes (`_timesChecked` is the
diagnostic check counter, incremented on every `tryUpdate` entry). -/
structure TryState where
  timesChecked : Nat
  lastSuccessfulETag : Option String
  lastOperationSignatures : SignatureStore
deriving Repr, DecidableEq

/-- The parts of a `node-fetch` `Response` that `tryUpdate` consults.
`bodyManifest` is the value `response.json()` yields; `bodyText` the
value `response.text()` yields.  `none` header fields model
`headers.get` returning `null`. -/
structure HttpResponse where
  status : Nat
  contentType : Option String
  etagHeader : Option String
  bodyManifest : OperationManifest
  bodyText : String
deriving Repr, DecidableEq

/-- `Response.ok` of `node-fetch`: status in the range 200-299. -/
def HttpResponse.respOk (r : HttpResponse) : Bool :=
  decide (200 ≤ r.status) && decide (r.status < 300)

/-- JavaScript truthiness of a nullable header string: `null` and the
empty string are falsy. -/
def isTruthy : Option String → Bool
  | none => false
  | some s => s ≠ ""

/-- What `await fetch(manifestUrl, fetchOptions)` delivers to the rest of
`tryUpdate`: either a transport error (the `catch` branch) or a
response. -/
inductive FetchOutcome where
  | failure (message : String)
  | success (r : HttpResponse)
deriving Repr, DecidableEq

/-- Model of the JavaScript `JSON.parse` call the code applies to the
received `etag` header (`agent.ts` line 198), restricted to the inputs
this development evaluates it on: a JSON string literal without escape
sequences decodes to its unquoted content, and every other input is
modelled as a `SyntaxError`. -/
def jsonParseETag (s : String) : Except String String :=
  match s.data with
  | [] => Except.error "SyntaxError: Unexpected end of JSON input"
  | c :: rest =>
    if c = '"' ∧ rest ≠ [] ∧ rest.getLast? = some '"'
        ∧ ∀ x ∈ rest.dropLast, x ≠ '"' ∧ x ≠ '\\' then
      Except.ok ⟨rest.dropLast⟩
    else Except.error "SyntaxError"

/-- Result of one `tryUpdate` run: the updated agent fields, the cache
calls issued (via `updateManifest`), and the returned boolean or the
thrown error. -/
structure TryRun where
  state : TryState
  trace : List CacheOp
  result : Except String Bool
deriving Repr

/-- `Agent.tryUpdate` (`agent.ts` lines 133-203), as a function of the
pre-state and of the outcome the fetch delivers.  Branches in source
order: transport failure is re-thrown; status 304 returns `false`;
`!response.ok` throws with the body text; a truthy `content-type` other
than `application/json` throws; otherwise the body is handed to
`updateManifest` and, when a truthy `etag` header is present, the header
is run through `JSON.parse` and stored in `lastSuccessfulETag`. -/
def tryUpdate (st : TryState) : FetchOutcome → TryRun
  | FetchOutcome.failure msg =>
    ⟨{ st with timesChecked := st.timesChecked + 1 }, [],
      Except.error ("Unable to fetch operation manifest: " ++ msg)⟩
  | FetchOutcome.success r =>
    if r.status = 304 then
      ⟨{ st with timesChecked := st.timesChecked + 1 }, [], Except.ok false⟩
    else if ¬ r.respOk then
      ⟨{ st with timesChecked := st.timesChecked + 1 }, [],
        Except.error ("Could not fetch manifest " ++ r.bodyText)⟩
    else if isTruthy r.contentType ∧ r.contentType ≠ some "application/json" then
      ⟨{ st with timesChecked := st.timesChecked + 1 }, [],
        Except.error ("Unexpected Content-Type header: " ++ r.contentType.getD "")⟩
    else
      match updateManifest st.lastOperationSignatures r.bodyManifest with
      | Except.error e =>
        ⟨{ st with timesChecked := st.timesChecked + 1 }, [], Except.error e⟩
      | Except.ok (repl, trace) =>
        if isTruthy r.etagHeader then
          match jsonParseETag (r.etagHeader.getD "") with
          | Except.ok tok =>
            ⟨⟨st.timesChecked + 1, some tok, repl⟩, trace, Except.ok true⟩
          | Except.error e =>
            ⟨⟨st.timesChecked + 1, st.lastSuccessfulETag, repl⟩, trace,
              Except.error e⟩
        else
          ⟨⟨st.timesChecked + 1, st.lastSuccessfulETag, repl⟩, trace, Except.ok true⟩

/-! ## Scheduler (`Agent.checkForUpdate`, `start`, `stop`) -/

/-- The full agent state the scheduler sees.  `requestInFlight` holds the
identity of the pending promise while a check is in flight (`null`
otherwise); `timer` the interval handle. -/
structure CheckState where
  requestInFlight : Option Nat
  lastSuccessfulCheck : Option Int
  timer : Option Nat
  inner : TryState
deriving Repr, DecidableEq

/-- What the promise `checkForUpdate` hands back to its caller settles
to.  A caller that begins a check receives the result-carrying chain
(`promise.then(() => this.tryUpdate()).then(...)`, `agent.ts` lines
221-234): its boolean result or its re-raised error (`completed`).  A
suppressed caller receives the stored `requestInFlight` marker instead —
but the source stores the bare `Promise.resolve()` there (lines
214-217), a void promise that is already settled with `undefined` at
installation and is decoupled from the chain, which is returned to the
first caller only and never stored; so the suppressed caller's promise
resolves immediately with `undefined`, carrying neither the check's
boolean nor its error (`joinedResolvedVoid p`, where `p` identifies the
stored marker promise). -/
inductive CheckResult where
  | joinedResolvedVoid (p : Nat)
  | completed (r : Except String Bool)
deriving Repr

/-- The value a caller's returned promise eventually settles to: `none`
models resolution with `undefined` (the already-settled void marker a
suppressed caller gets), `some r` the chain's boolean resolution or
re-raised rejection. -/
def CheckResult.settlesTo : CheckResult → Option (Except String Bool)
  | CheckResult.joinedResolvedVoid _ => none
  | CheckResult.completed r => some r

/-- Observable milestones of one `checkForUpdate` invocation, in
chronological order: installing the in-flight marker, clearing it
(`resetRequestInFlight`), then resolving with the result or re-raising
the error. -/
inductive CheckEvent where
  | markerInstalled (p : Nat)
  | markerCleared
  | resolvedOk (b : Bool)
  | raisedError (msg : String)
deriving Repr, DecidableEq

/-- The terminal event of a check: resolve on success, re-raise on
error. -/
def terminalEvent : Except String Bool → CheckEvent
  | Except.ok b => CheckEvent.resolvedOk b
  | Except.error e => CheckEvent.raisedError e

/-- Result of one `checkForUpdate` invocation. -/
structure CheckRun where
  state : CheckState
  trace : List CacheOp
  events : List CheckEvent
  result : CheckResult
deriving Repr

/-- `Agent.checkForUpdate` (`agent.ts` lines 205-235), as a function of
the pre-state, the current time, the identity `pid` of the
`Promise.resolve()` a fresh check would install as its in-flight
marker, and the fetch outcome delivered during the check.
`warnWhenLossOfSync` (called first) only logs.  If a check is in flight
(`this.requestInFlight` non-null), the stored marker is returned as is —
and since the source stored the bare already-resolved `Promise.resolve()`
there rather than the result-carrying chain, the suppressed caller gets
`joinedResolvedVoid p` (settles immediately with `undefined`).
Otherwise the marker `pid` is installed, `tryUpdate` runs, the marker is
cleared, and on success `lastSuccessfulCheck := now` is recorded before
the chain resolves with the result; an error is re-thrown after the
marker is cleared. -/
def checkForUpdate (st : CheckState) (now : Int) (pid : Nat)
    (outcome : FetchOutcome) : CheckRun :=
  match st.requestInFlight with
  | some p => ⟨st, [], [], CheckResult.joinedResolvedVoid p⟩
  | none =>
    match tryUpdate st.inner outcome with
    | ⟨inner2, trace, Except.ok b⟩ =>
      ⟨⟨none, some now, st.timer, inner2⟩, trace,
        [CheckEvent.markerInstalled pid, CheckEvent.markerCleared,
          CheckEvent.resolvedOk b],
        CheckResult.completed (Except.ok b)⟩
    | ⟨inner2, trace, Except.error e⟩ =>
      ⟨⟨none, st.lastSuccessfulCheck, st.timer, inner2⟩, trace,
        [CheckEvent.markerInstalled pid, CheckEvent.markerCleared,
          CheckEvent.raisedError e],
        CheckResult.completed (Except.error e)⟩

/-- The agent state observed while a check is running: between
`this.requestInFlight = promise` (`agent.ts` line 217) and
`resetRequestInFlight()`, the field holds the installed marker promise
`pid` (a `Promise.resolve()`); a `checkForUpdate` call arriving in this
window is suppressed. -/
def midFlight (st : CheckState) (pid : Nat) : CheckState :=
  { st with requestInFlight := some pid }

/-! ## Staleness warning (`timeSinceLastSuccessfulCheck`,
`warnWhenLossOfSync`, `agent.ts` lines 107-125) -/

/-- The JavaScript number `timeSinceLastSuccessfulCheck` produces: either
`-Infinity` (the `!this.lastSuccessfulCheck` branch) or a finite
millisecond difference. -/
inductive JsNumber where
  | negInfinity
  | finite (ms : Int)
deriving Repr, DecidableEq

/-- `Agent.timeSinceLastSuccessfulCheck` (`agent.ts` lines 107-113): the
code returns `-Infinity` when no check has succeeded yet, otherwise
`now - lastSuccessfulCheck` in milliseconds. -/
def timeSinceLastSuccessfulCheck (now : Int) (lastSuccessfulCheck : Option Int) :
    JsNumber :=
  match lastSuccessfulCheck with
  | none => JsNumber.negInfinity
  | some t => JsNumber.finite (now - t)

/-- JavaScript `>` between such a number and a finite bound:
`-Infinity > b` is false. -/
def jsGtInt : JsNumber → Int → Bool
  | JsNumber.negInfinity, _ => false
  | JsNumber.finite m, b => decide (b < m)

/-- `SYNC_WARN_TIME_SECONDS` (`agent.ts` line 11). -/
def SYNC_WARN_TIME_SECONDS : Int := 60

/-- Whether `Agent.warnWhenLossOfSync` (`agent.ts` lines 115-125) emits
its warning: the comparison
`timeSinceLastSuccessfulCheck() > SYNC_WARN_TIME_SECONDS * 1000`. -/
def warnWhenLossOfSyncFires (now : Int) (lastSuccessfulCheck : Option Int) : Bool :=
  jsGtInt (timeSinceLastSuccessfulCheck now lastSuccessfulCheck)
    (SYNC_WARN_TIME_SECONDS * 1000)

/-! ## Constructor validation (`Agent.constructor`, `agent.ts` lines
46-59) -/

/-- The constructor options, restricted to what the validation consults.
`schemaHash = ""` models a falsy (absent or empty) `schemaHash`;
`engineIsObject` models `typeof options.engine === "object"`;
`serviceID = some s` models `engine.serviceID` being the string `s`
(`none`: absent or not a string). -/
structure AgentOptionsModel where
  schemaHash : String
  engineIsObject : Bool
  serviceID : Option String
deriving Repr, DecidableEq

/-- The two validation checks of `Agent.constructor`, in source order:
throw when `schemaHash` is falsy, then throw when `engine` is not an
object or `engine.serviceID` is not a string. -/
def validateAgentOptions (o : AgentOptionsModel) : Except String Unit :=
  if o.schemaHash = "" then
    Except.error "`schemaHash` must be passed to the Agent."
  else if o.engineIsObject = false ∨ o.serviceID = none then
    Except.error "`engine.serviceID` must be passed to the Agent."
  else Except.ok ()

/-- The field initialisers of a freshly constructed agent: no request in
flight, no success recorded, no timer, `_timesChecked = 0`, no ETag, an
empty signature store. -/
def initialAgentState : CheckState := ⟨none, none, none, ⟨0, none, []⟩⟩

/-- `new Agent(options)`: validation, then the initial state.  The
constructor contains no fetch call, so the constructed state's
`timesChecked` counter is 0. -/
def mkAgent (o : AgentOptionsModel) : Except String CheckState :=
  match validateAgentOptions o with
  | Except.error e => Except.error e
  | Except.ok _ => Except.ok initialAgentState

/-! ## Timer arming (`Agent.start` lines 89-99, `Agent.stop` lines
101-105) -/

/-- One `start()` call's effect on the timer, on a state pairing the
`timer` field with the list of armed (not yet cancelled) interval ids.
`this.timer = this.timer || setInterval(...)`: `setInterval` is only
evaluated — a new interval only armed — when the field is unset. -/
def startStep (s : Option Nat × List Nat) (freshId : Nat) : Option Nat × List Nat :=
  match s.1 with
  | some t => (some t, s.2)
  | none => (some freshId, s.2 ++ [freshId])

/-- A sequence of `start()` calls, each with the interval id
`setInterval` would return if evaluated. -/
def startMany (s : Option Nat × List Nat) (ids : List Nat) : Option Nat × List Nat :=
  ids.foldl startStep s

/-- `Agent.stop`: `clearInterval(this.timer)` when the field is set (the
field itself is kept). -/
def stopStep (s : Option Nat × List Nat) : Option Nat × List Nat :=
  match s.1 with
  | some t => (some t, s.2.filter (fun a => a ≠ t))
  | none => s

/-- Concrete manifest `{version: 1, operations: [{signature: "a",
document: "docA"}]}` used as an evaluation point. -/
def exManifestA : OperationManifest := ⟨1, some [⟨"a", "docA"⟩]⟩

/-- Concrete manifest `{version: 1, operations: [{signature: "b",
document: "docB"}]}` used as an evaluation point. -/
def exManifestB : OperationManifest := ⟨1, some [⟨"b", "docB"⟩]⟩

/-- A successful JSON response carrying the standard quoted validator
header `"abc"` (the raw header text is the five characters
quote-a-b-c-quote) and an empty valid manifest. -/
def exETagResponse : HttpResponse :=
  ⟨200, some "application/json", some "\"abc\"", ⟨1, some []⟩, ""⟩

/-- A 304 Not Modified response (header and body fields are irrelevant:
`tryUpdate` returns before reading them). -/
def exNotModifiedResponse : HttpResponse := ⟨304, none, none, ⟨0, none⟩, ""⟩

/-- A non-JSON success response carrying an invalid manifest, used to
evaluate the rejection path. -/
def exInvalidManifestResponse : HttpResponse :=
  ⟨200, some "application/json", none, ⟨2, some []⟩, "body"⟩

/-! ## Helper lemmas -/

theorem mem_storeAdd {r : SignatureStore} {x s : String} :
    s ∈ storeAdd r x ↔ s ∈ r ∨ s = x := by
  unfold storeAdd
  split
  · rename_i hx
    constructor
    · exact Or.inl
    · rintro (h | rfl)
      · exact h
      · exact hx
  · simp

theorem map_fst_update (m : List (String × String)) (k v : String) :
    (m.map (fun p => if p.1 = k then (k, v) else p)).map Prod.fst =
      m.map Prod.fst := by
  induction m with
  | nil => rfl
  | cons p t ih =>
    by_cases h : p.1 = k
    · simp [h, ih]
    · simp [h, ih]

theorem mem_mapSet_keys {m : List (String × String)} {k v a : String} :
    a ∈ (mapSet m k v).map Prod.fst ↔ a ∈ m.map Prod.fst ∨ a = k := by
  unfold mapSet
  split
  · rename_i h
    rw [map_fst_update]
    constructor
    · exact Or.inl
    · rintro (ha | rfl)
      · exact ha
      · exact h
  · simp

theorem processIncoming_trace (last : SignatureStore) (ops : List Operation)
    (incoming : List (String × String)) (repl : SignatureStore) :
    (processIncoming last ops incoming repl).2.2 = addTrace last ops := by
  induction ops generalizing incoming repl with
  | nil => rfl
  | cons op rest ih => simp [processIncoming, addTrace, ih]

theorem processIncoming_repl (last : SignatureStore) (ops : List Operation)
    (incoming : List (String × String)) (repl : SignatureStore) :
    (processIncoming last ops incoming repl).2.1 = replOf ops repl := by
  induction ops generalizing incoming repl with
  | nil => rfl
  | cons op rest ih => simp [processIncoming, replOf, ih]

theorem processIncoming_keys (last : SignatureStore) (ops : List Operation)
    (incoming : List (String × String)) (repl : SignatureStore) (a : String) :
    a ∈ (processIncoming last ops incoming repl).1.map Prod.fst ↔
      a ∈ incoming.map Prod.fst ∨ a ∈ ops.map Operation.signature := by
  induction ops generalizing incoming repl with
  | nil => simp [processIncoming]
  | cons op rest ih =>
    simp only [processIncoming, List.map_cons, List.mem_cons]
    rw [ih, mem_mapSet_keys]
    tauto

theorem mem_replOf {ops : List Operation} {r : SignatureStore} {s : String} :
    s ∈ replOf ops r ↔ s ∈ r ∨ s ∈ ops.map Operation.signature := by
  induction ops generalizing r with
  | nil => simp [replOf]
  | cons op rest ih =>
    simp only [replOf, List.map_cons, List.mem_cons]
    rw [ih, mem_storeAdd]
    tauto

theorem filterMap_ext_mem {α β : Type} {l : List α} {f g : α → Option β}
    (h : ∀ a ∈ l, f a = g a) : l.filterMap f = l.filterMap g := by
  induction l with
  | nil => rfl
  | cons a t ih =>
    rw [List.filterMap_cons, List.filterMap_cons, h a (List.mem_cons_self a t),
      ih (fun x hx => h x (List.mem_cons_of_mem a hx))]

theorem updateManifest_ok_eq (last : SignatureStore) (m : OperationManifest)
    (ops : List Operation) (hops : m.operations = some ops) (hv : m.version = 1) :
    updateManifest last m =
      Except.ok (replOf ops [], addTrace last ops ++ delTrace last ops) := by
  obtain ⟨v, o⟩ := m
  change o = some ops at hops
  change v = 1 at hv
  subst hops
  subst hv
  rw [updateManifest, if_pos rfl]
  rw [processIncoming_repl, processIncoming_trace]
  have hdel : (last.filterMap (fun s =>
      if s ∈ (processIncoming last ops [] []).1.map Prod.fst then none
      else some (CacheOp.del (getCacheKey s)))) = delTrace last ops := by
    unfold delTrace
    apply filterMap_ext_mem
    intro s _
    by_cases hs : s ∈ ops.map Operation.signature
    · rw [if_pos ((processIncoming_keys last ops [] [] s).mpr (Or.inr hs)),
        if_pos hs]
    · rw [if_neg, if_neg hs]
      intro hmem
      rcases (processIncoming_keys last ops [] [] s).mp hmem with h0 | h1
      · simp at h0
      · exact hs h1
  rw [hdel]

theorem updateManifest_ok_inv {last : SignatureStore} {m : OperationManifest}
    {repl : SignatureStore} {t : List CacheOp}
    (h : updateManifest last m = Except.ok (repl, t)) :
    ∃ ops, m.operations = some ops ∧ m.version = 1 ∧
      repl = replOf ops [] ∧ t = addTrace last ops ++ delTrace last ops := by
  obtain ⟨v, o⟩ := m
  cases o with
  | none =>
    rw [updateManifest] at h
    cases h
  | some ops =>
    by_cases hv : v = 1
    · have he := updateManifest_ok_eq last ⟨v, some ops⟩ ops rfl hv
      rw [he] at h
      simp only [Except.ok.injEq, Prod.mk.injEq] at h
      exact ⟨ops, rfl, hv, h.1.symm, h.2.symm⟩
    · rw [updateManifest, if_neg hv] at h
      cases h

theorem mem_addTrace {last : SignatureStore} {ops : List Operation} {op : CacheOp} :
    op ∈ addTrace last ops ↔
      ∃ o, o ∈ ops ∧ o.signature ∉ last ∧
        op = CacheOp.set (getCacheKey o.signature) o.document := by
  induction ops with
  | nil => simp [addTrace]
  | cons o rest ih =>
    by_cases h : o.signature ∈ last
    · rw [addTrace, if_pos h, List.nil_append, ih]
      constructor
      · rintro ⟨x, hx, hnl, hop⟩
        exact ⟨x, List.mem_cons_of_mem o hx, hnl, hop⟩
      · rintro ⟨x, hx, hnl, hop⟩
        rcases List.mem_cons.mp hx with heq | hx'
        · subst heq
          exact absurd h hnl
        · exact ⟨x, hx', hnl, hop⟩
    · rw [addTrace, if_neg h, List.singleton_append]
      constructor
      · intro hmem
        rcases List.mem_cons.mp hmem with heq | hmem'
        · exact ⟨o, List.mem_cons_self o rest, h, heq⟩
        · obtain ⟨x, hx, hnl, hop⟩ := ih.mp hmem'
          exact ⟨x, List.mem_cons_of_mem o hx, hnl, hop⟩
      · rintro ⟨x, hx, hnl, hop⟩
        rcases List.mem_cons.mp hx with heq | hx'
        · subst heq
          rw [hop]
          exact List.mem_cons_self _ _
        · exact List.mem_cons_of_mem _ (ih.mpr ⟨x, hx', hnl, hop⟩)

theorem mem_delTrace {last : SignatureStore} {ops : List Operation} {op : CacheOp} :
    op ∈ delTrace last ops ↔
      ∃ s, s ∈ last ∧ s ∉ ops.map Operation.signature ∧
        op = CacheOp.del (getCacheKey s) := by
  unfold delTrace
  rw [List.mem_filterMap]
  constructor
  · rintro ⟨s, hs, hf⟩
    by_cases h : s ∈ ops.map Operation.signature
    · rw [if_pos h] at hf
      cases hf
    · rw [if_neg h] at hf
      injection hf with hf
      exact ⟨s, hs, h, hf.symm⟩
  · rintro ⟨s, hs, h, rfl⟩
    exact ⟨s, hs, by rw [if_neg h]⟩

theorem addTrace_eq_nil {last : SignatureStore} {ops : List Operation}
    (h : ∀ o ∈ ops, o.signature ∈ last) : addTrace last ops = [] := by
  induction ops with
  | nil => rfl
  | cons o rest ih =>
    rw [addTrace, if_pos (h o (List.mem_cons_self o rest)),
      ih (fun x hx => h x (List.mem_cons_of_mem o hx))]
    rfl

theorem delTrace_eq_nil {last : SignatureStore} {ops : List Operation}
    (h : ∀ s ∈ last, s ∈ ops.map Operation.signature) : delTrace last ops = [] := by
  unfold delTrace
  induction last with
  | nil => rfl
  | cons s rest ih =>
    rw [List.filterMap_cons, if_pos (h s (List.mem_cons_self s rest))]
    exact ih (fun x hx => h x (List.mem_cons_of_mem s hx))

theorem getCacheKey_injective {a b : String} (h : getCacheKey a = getCacheKey b) :
    a = b := by
  unfold getCacheKey at h
  have hd : ("apq:" ++ a).data = ("apq:" ++ b).data := congrArg String.data h
  cases a with
  | mk la =>
    cases b with
    | mk lb =>
      simp only [String.data_append] at hd
      exact congrArg String.mk (List.append_cancel_left hd)

theorem applyTrace_append (c : String → Option String) (t₁ t₂ : List CacheOp) :
    applyTrace c (t₁ ++ t₂) = applyTrace (applyTrace c t₁) t₂ := by
  induction t₁ generalizing c with
  | nil => rfl
  | cons op t ih => simp [applyTrace, ih]

theorem applyOp_of_ne {c : String → Option String} {op : CacheOp} {k : String}
    (h : CacheOp.key op ≠ k) : applyOp c op k = c k := by
  cases op with
  | set k' v =>
    have hne : k ≠ k' := fun hk => h (by simp [CacheOp.key, hk])
    simp [applyOp, hne]
  | del k' =>
    have hne : k ≠ k' := fun hk => h (by simp [CacheOp.key, hk])
    simp [applyOp, hne]

theorem applyTrace_ne_none_of_sets {t : List CacheOp} {k : String}
    (c : String → Option String)
    (hall : ∀ op ∈ t, CacheOp.key op = k → ∃ v, op = CacheOp.set k v)
    (hsome : c k ≠ none ∨ ∃ op ∈ t, CacheOp.key op = k) :
    applyTrace c t k ≠ none := by
  induction t generalizing c with
  | nil =>
    rcases hsome with h | ⟨op, hop, _⟩
    · exact h
    · cases hop
  | cons op rest ih =>
    rw [applyTrace]
    by_cases hk : CacheOp.key op = k
    · obtain ⟨v, rfl⟩ := hall op (List.mem_cons_self op rest) hk
      apply ih (applyOp c (CacheOp.set k v))
      · intro x hx hxk
        exact hall x (List.mem_cons_of_mem _ hx) hxk
      · left
        simp [applyOp]
    · apply ih (applyOp c op)
      · intro x hx hxk
        exact hall x (List.mem_cons_of_mem _ hx) hxk
      · rcases hsome with h | ⟨x, hx, hxk⟩
        · left
          rw [applyOp_of_ne hk]
          exact h
        · rcases List.mem_cons.mp hx with heq | hx'
          · subst heq
            exact absurd hxk hk
          · exact Or.inr ⟨x, hx', hxk⟩

theorem applyTrace_eq_none_of_dels {t : List CacheOp} {k : String}
    (c : String → Option String)
    (hall : ∀ op ∈ t, CacheOp.key op = k → op = CacheOp.del k)
    (hnone : c k = none ∨ ∃ op ∈ t, CacheOp.key op = k) :
    applyTrace c t k = none := by
  induction t generalizing c with
  | nil =>
    rcases hnone with h | ⟨op, hop, _⟩
    · exact h
    · cases hop
  | cons op rest ih =>
    rw [applyTrace]
    by_cases hk : CacheOp.key op = k
    · obtain rfl := hall op (List.mem_cons_self op rest) hk
      apply ih (applyOp c (CacheOp.del k))
      · intro x hx hxk
        exact hall x (List.mem_cons_of_mem _ hx) hxk
      · left
        simp [applyOp]
    · apply ih (applyOp c op)
      · intro x hx hxk
        exact hall x (List.mem_cons_of_mem _ hx) hxk
      · rcases hnone with h | ⟨x, hx, hxk⟩
        · left
          rw [applyOp_of_ne hk]
          exact h
        · rcases List.mem_cons.mp hx with heq | hx'
          · subst heq
            exact absurd hxk hk
          · exact Or.inr ⟨x, hx', hxk⟩

/-- The heart of reconciliation: one valid `updateManifest` round moves a
cache whose live `"apq:"` keys are exactly the previously known
signatures to a cache whose live keys are exactly the incoming
signatures. -/
theorem reconcile_exact {last : SignatureStore} {ops : List Operation}
    (c : String → Option String)
    (hc : ∀ k, c k ≠ none ↔ ∃ s, s ∈ last ∧ k = getCacheKey s) :
    ∀ k, applyTrace c (addTrace last ops ++ delTrace last ops) k ≠ none ↔
      ∃ s, s ∈ ops.map Operation.signature ∧ k = getCacheKey s := by
  intro k
  by_cases hk : ∃ s, s ∈ ops.map Operation.signature ∧ k = getCacheKey s
  · obtain ⟨s₀, hs₀, rfl⟩ := hk
    have hres : applyTrace c (addTrace last ops ++ delTrace last ops)
        (getCacheKey s₀) ≠ none := by
      apply applyTrace_ne_none_of_sets c
      · intro op hop hkey
        rcases List.mem_append.mp hop with ha | hd
        · obtain ⟨o, _, _, rfl⟩ := mem_addTrace.mp ha
          have : o.signature = s₀ := getCacheKey_injective hkey
          exact ⟨o.document, by rw [this]⟩
        · obtain ⟨s, _, hsn, rfl⟩ := mem_delTrace.mp hd
          have : s = s₀ := getCacheKey_injective hkey
          subst this
          exact absurd hs₀ hsn
      · by_cases hlast : s₀ ∈ last
        · exact Or.inl ((hc (getCacheKey s₀)).mpr ⟨s₀, hlast, rfl⟩)
        · obtain ⟨o, ho, hos⟩ := List.mem_map.mp hs₀
          refine Or.inr ⟨CacheOp.set (getCacheKey s₀) o.document, ?_, rfl⟩
          apply List.mem_append.mpr
          left
          apply mem_addTrace.mpr
          exact ⟨o, ho, by rw [hos]; exact hlast, by rw [hos]⟩
    simp only [hres, ne_eq, not_false_eq_true, true_iff]
    exact ⟨s₀, hs₀, rfl⟩
  · have hres : applyTrace c (addTrace last ops ++ delTrace last ops) k = none := by
      apply applyTrace_eq_none_of_dels c
      · intro op hop hkey
        rcases List.mem_append.mp hop with ha | hd
        · obtain ⟨o, ho, _, rfl⟩ := mem_addTrace.mp ha
          exact absurd ⟨o.signature, List.mem_map.mpr ⟨o, ho, rfl⟩, hkey.symm⟩ hk
        · obtain ⟨s, _, _, rfl⟩ := mem_delTrace.mp hd
          have hks : getCacheKey s = k := hkey
          rw [hks]
      · by_cases hck : c k = none
        · exact Or.inl hck
        · obtain ⟨s₁, hs₁, rfl⟩ := (hc k).mp hck
          have hs₁n : s₁ ∉ ops.map Operation.signature :=
            fun hmem => hk ⟨s₁, hmem, rfl⟩
          refine Or.inr ⟨CacheOp.del (getCacheKey s₁), ?_, rfl⟩
          apply List.mem_append.mpr
          right
          exact mem_delTrace.mpr ⟨s₁, hs₁, hs₁n, rfl⟩
    simp only [hres, ne_eq, not_true_eq_false, false_iff]
    exact hk

theorem checkForUpdate_fresh_inflight (st : CheckState) (now : Int) (pid : Nat)
    (outcome : FetchOutcome) (h : st.requestInFlight = none) :
    (checkForUpdate st now pid outcome).state.requestInFlight = none := by
  unfold checkForUpdate
  rw [h]
  rcases htu : tryUpdate st.inner outcome with ⟨inner2, trace, res⟩
  cases res with
  | ok b => rfl
  | error e => rfl

theorem checkForUpdate_fresh_result (st : CheckState) (now : Int) (pid : Nat)
    (outcome : FetchOutcome) (h : st.requestInFlight = none) :
    (checkForUpdate st now pid outcome).result =
      CheckResult.completed (tryUpdate st.inner outcome).result := by
  unfold checkForUpdate
  rw [h]
  rcases htu : tryUpdate st.inner outcome with ⟨inner2, trace, res⟩
  cases res with
  | ok b => rfl
  | error e => rfl

theorem checkForUpdate_fresh_events (st : CheckState) (now : Int) (pid : Nat)
    (outcome : FetchOutcome) (h : st.requestInFlight = none) :
    (checkForUpdate st now pid outcome).events =
      [CheckEvent.markerInstalled pid, CheckEvent.markerCleared,
        terminalEvent (tryUpdate st.inner outcome).result] := by
  unfold checkForUpdate
  rw [h]
  rcases htu : tryUpdate st.inner outcome with ⟨inner2, trace, res⟩
  cases res with
  | ok b => rfl
  | error e => rfl

theorem checkForUpdate_fresh_trace (st : CheckState) (now : Int) (pid : Nat)
    (outcome : FetchOutcome) (h : st.requestInFlight = none) :
    (checkForUpdate st now pid outcome).trace =
      (tryUpdate st.inner outcome).trace := by
  unfold checkForUpdate
  rw [h]
  rcases htu : tryUpdate st.inner outcome with ⟨inner2, trace, res⟩
  cases res with
  | ok b => rfl
  | error e => rfl

theorem checkForUpdate_fresh_inner (st : CheckState) (now : Int) (pid : Nat)
    (outcome : FetchOutcome) (h : st.requestInFlight = none) :
    (checkForUpdate st now pid outcome).state.inner =
      (tryUpdate st.inner outcome).state := by
  unfold checkForUpdate
  rw [h]
  rcases htu : tryUpdate st.inner outcome with ⟨inner2, trace, res⟩
  cases res with
  | ok b => rfl
  | error e => rfl

theorem checkForUpdate_not_joined (st : CheckState) (now : Int) (pid : Nat)
    (outcome : FetchOutcome) (h : st.requestInFlight = none) (p : Nat) :
    (checkForUpdate st now pid outcome).result ≠
      CheckResult.joinedResolvedVoid p := by
  rw [checkForUpdate_fresh_result st now pid outcome h]
  intro hcontra
  cases hcontra

theorem startMany_fixed (t : Nat) (active : List Nat) (ids : List Nat) :
    startMany (some t, active) ids = (some t, active) := by
  induction ids with
  | nil => rfl
  | cons i rest ih =>
    rw [startMany, List.foldl_cons]
    have h1 : startStep (some t, active) i = (some t, active) := rfl
    rw [h1]
    exact ih

/-! ## Claims -/

/-- C3: a manifest whose version is not 1 or whose `operations` field is
not a sequence (or absent) makes `updateManifest` fail with the
"Invalid manifest format." error, producing no replacement signature set
and no cache call; consequently a fetch delivering such a body leaves
`lastOperationSignatures`, the ETag token and the cache untouched (empty
trace) and propagates the error. -/
theorem updateManifest_rejects_invalid (last : SignatureStore)
    (m : OperationManifest) (h : m.version ≠ 1 ∨ m.operations = none) :
    updateManifest last m = Except.error "Invalid manifest format."
    ∧ ∀ (st : TryState) (r : HttpResponse),
        st.lastOperationSignatures = last → r.bodyManifest = m →
        r.status ≠ 304 → r.respOk = true →
        ¬(isTruthy r.contentType = true ∧ r.contentType ≠ some "application/json") →
        (tryUpdate st (FetchOutcome.success r)).state.lastOperationSignatures = last
        ∧ (tryUpdate st (FetchOutcome.success r)).state.lastSuccessfulETag =
            st.lastSuccessfulETag
        ∧ (tryUpdate st (FetchOutcome.success r)).trace = []
        ∧ (tryUpdate st (FetchOutcome.success r)).result =
            Except.error "Invalid manifest format." := by
  have herr : updateManifest last m = Except.error "Invalid manifest format." := by
    obtain ⟨v, o⟩ := m
    cases o with
    | none => rw [updateManifest]
    | some ops =>
      rcases h with hv | hno
      · change v ≠ 1 at hv
        rw [updateManifest, if_neg hv]
      · cases hno
  refine ⟨herr, ?_⟩
  intro st r hsig hbody h304 hok hct
  have hres : tryUpdate st (FetchOutcome.success r) =
      ⟨{ st with timesChecked := st.timesChecked + 1 }, [],
        Except.error "Invalid manifest format."⟩ := by
    rw [tryUpdate, if_neg h304, if_neg (not_not_intro hok), if_neg hct, hsig,
      hbody, herr]
  rw [hres]
  exact ⟨hsig, rfl, rfl, rfl⟩

/-- C3 witness: the rejection evaluated on the concrete manifest
`{version: 2, operations: []}` against a state knowing `"x"`. -/
theorem updateManifest_rejects_invalid_witness :
    updateManifest ["x"] ⟨2, some []⟩ = Except.error "Invalid manifest format."
    ∧ ((tryUpdate ⟨0, some "etag", ["x"]⟩
          (FetchOutcome.success exInvalidManifestResponse)).state.lastOperationSignatures
        = ["x"]
      ∧ (tryUpdate ⟨0, some "etag", ["x"]⟩
          (FetchOutcome.success exInvalidManifestResponse)).state.lastSuccessfulETag
        = some "etag"
      ∧ (tryUpdate ⟨0, some "etag", ["x"]⟩
          (FetchOutcome.success exInvalidManifestResponse)).trace = []
      ∧ (tryUpdate ⟨0, some "etag", ["x"]⟩
          (FetchOutcome.success exInvalidManifestResponse)).result =
          Except.error "Invalid manifest format.") :=
  have h := updateManifest_rejects_invalid ["x"] ⟨2, some []⟩ (Or.inl (by decide))
  ⟨h.1, h.2 ⟨0, some "etag", ["x"]⟩ exInvalidManifestResponse rfl rfl (by decide)
    (by decide) (by decide)⟩

/-- C4 counterexample: the suppressed caller does not observe the
original caller's eventual result.  From a fresh agent, the caller that
starts the check (against a concrete 304 outcome) gets the chain, which
settles to `ok false`; a caller arriving while that check is in flight
(marker `1` installed) gets back the stored marker — the already-settled
`Promise.resolve()` — whose settled value is `undefined`, not the
check's result. -/
theorem checkForUpdate_suppressed_caller_resolves_void_early :
    (checkForUpdate initialAgentState 0 1
        (FetchOutcome.success exNotModifiedResponse)).result =
      CheckResult.completed (Except.ok false)
    ∧ (checkForUpdate (midFlight initialAgentState 1) 0 2
        (FetchOutcome.success exNotModifiedResponse)).result =
      CheckResult.joinedResolvedVoid 1
    ∧ CheckResult.settlesTo (CheckResult.joinedResolvedVoid 1) = none
    ∧ CheckResult.settlesTo (CheckResult.completed (Except.ok false)) =
        some (Except.ok false)
    ∧ (none : Option (Except String Bool)) ≠ some (Except.ok false) :=
  ⟨rfl, rfl, rfl, rfl, by intro hcontra; cases hcontra⟩

/-- C4 (amended): while a check is in flight (`requestInFlight = some
p`), a call to `checkForUpdate` starts no new fetch — the whole state,
in particular the `_timesChecked` fetch counter, is unchanged and no
cache call or event is emitted — and returns the stored in-flight
marker `p`; but that marker is the already-resolved `Promise.resolve()`
installed when the check began, not the result-carrying chain, so the
suppressed caller's promise settles immediately with `undefined` and is
never the check's completed result or error. -/
theorem checkForUpdate_suppresses_fetch_marker_void (st : CheckState) (now : Int)
    (pid : Nat) (outcome : FetchOutcome) (p : Nat)
    (h : st.requestInFlight = some p) :
    checkForUpdate st now pid outcome =
      ⟨st, [], [], CheckResult.joinedResolvedVoid p⟩
    ∧ (checkForUpdate st now pid outcome).state.inner.timesChecked =
        st.inner.timesChecked
    ∧ CheckResult.settlesTo (checkForUpdate st now pid outcome).result = none
    ∧ ∀ r, (checkForUpdate st now pid outcome).result ≠
        CheckResult.completed r := by
  have he : checkForUpdate st now pid outcome =
      ⟨st, [], [], CheckResult.joinedResolvedVoid p⟩ := by
    unfold checkForUpdate
    rw [h]
  refine ⟨he, by rw [he], by rw [he]; rfl, ?_⟩
  intro r hcontra
  rw [he] at hcontra
  cases hcontra

/-- C4 witness: a state with a check in flight (marker `7`), evaluated on
a concrete 304 outcome. -/
theorem checkForUpdate_suppresses_fetch_marker_void_witness :
    checkForUpdate ⟨some 7, none, none, ⟨5, none, []⟩⟩ 0 8
        (FetchOutcome.success exNotModifiedResponse) =
      ⟨⟨some 7, none, none, ⟨5, none, []⟩⟩, [], [],
        CheckResult.joinedResolvedVoid 7⟩
    ∧ (checkForUpdate ⟨some 7, none, none, ⟨5, none, []⟩⟩ 0 8
        (FetchOutcome.success exNotModifiedResponse)).state.inner.timesChecked = 5
    ∧ CheckResult.settlesTo (checkForUpdate ⟨some 7, none, none, ⟨5, none, []⟩⟩
        0 8 (FetchOutcome.success exNotModifiedResponse)).result = none
    ∧ ∀ r, (checkForUpdate ⟨some 7, none, none, ⟨5, none, []⟩⟩ 0 8
        (FetchOutcome.success exNotModifiedResponse)).result ≠
        CheckResult.completed r :=
  checkForUpdate_suppresses_fetch_marker_void ⟨some 7, none, none, ⟨5, none, []⟩⟩
    0 8 (FetchOutcome.success exNotModifiedResponse) 7 rfl

/-- C5: contrary to the specification, when `lastSuccessfulCheck` is
undefined the code's `timeSinceLastSuccessfulCheck` returns `-Infinity`
(`agent.ts` line 110), and `-Infinity > 60000` is false, so the
staleness warning never fires before the first successful check — the
spec (and the code's own comment "So far back that it's never?", and
the sibling variant returning `+Infinity`) expects it to fire on every
such call. -/
theorem warn_suppressed_when_never_succeeded (now : Int) :
    timeSinceLastSuccessfulCheck now none = JsNumber.negInfinity
    ∧ warnWhenLossOfSyncFires now none = false :=
  ⟨rfl, rfl⟩

/-- C8 counterexample: an options record whose `engine.serviceID` is the
empty string — hence lacking a non-empty service identifier — passes the
constructor's validation (`typeof "" === "string"`), so construction
does not fail as the claim states. -/
theorem mkAgent_accepts_empty_serviceID :
    validateAgentOptions ⟨"schema-hash", true, some ""⟩ = Except.ok ()
    ∧ mkAgent ⟨"schema-hash", true, some ""⟩ = Except.ok initialAgentState :=
  ⟨rfl, rfl⟩

/-- C8 (amended): construction fails with a configuration error whenever
the schema fingerprint is empty (falsy) or the engine is not an object
or its `serviceID` is not a string — an empty-string `serviceID` is
accepted — and the constructor performs no network call: any
successfully constructed agent has its fetch counter at 0. -/
theorem mkAgent_rejects_missing_config (o : AgentOptionsModel)
    (h : o.schemaHash = "" ∨ o.engineIsObject = false ∨ o.serviceID = none) :
    (∃ e, mkAgent o = Except.error e)
    ∧ ∀ (o2 : AgentOptionsModel) (st : CheckState),
        mkAgent o2 = Except.ok st → st.inner.timesChecked = 0 := by
  constructor
  · have hval : ∃ e, validateAgentOptions o = Except.error e := by
      by_cases hsh : o.schemaHash = ""
      · exact ⟨_, by rw [validateAgentOptions, if_pos hsh]⟩
      · rcases h with h1 | h2 | h3
        · exact absurd h1 hsh
        · exact ⟨_, by rw [validateAgentOptions, if_neg hsh, if_pos (Or.inl h2)]⟩
        · exact ⟨_, by rw [validateAgentOptions, if_neg hsh, if_pos (Or.inr h3)]⟩
    obtain ⟨e, he⟩ := hval
    refine ⟨e, ?_⟩
    unfold mkAgent
    rw [he]
  · intro o2 st hok
    unfold mkAgent at hok
    cases hv : validateAgentOptions o2 with
    | error e =>
      rw [hv] at hok
      cases hok
    | ok u =>
      rw [hv] at hok
      injection hok with h2
      rw [← h2]
      rfl

/-- C8 witness: an options record with no `serviceID` at all is rejected,
and the concrete successfully constructed agent has fetch counter 0. -/
theorem mkAgent_rejects_missing_config_witness :
    (∃ e, mkAgent ⟨"schema-hash", true, none⟩ = Except.error e)
    ∧ ∀ (o2 : AgentOptionsModel) (st : CheckState),
        mkAgent o2 = Except.ok st → st.inner.timesChecked = 0 :=
  mkAgent_rejects_missing_config ⟨"schema-hash", true, none⟩ (Or.inr (Or.inr rfl))

/-- C10: `this.timer = this.timer || setInterval(...)` — once the timer
field is set by the first `start()`, every later `start()` preserves it
and arms no new interval; from a fresh agent any number of `start()`
calls arm at most one interval, and a single `stop()` cancels every
armed interval, ending all periodic ticking. -/
theorem start_never_arms_second_timer (t : Nat) (active : List Nat)
    (ids : List Nat) :
    startMany (some t, active) ids = (some t, active)
    ∧ (∀ ids2 : List Nat, (startMany (none, []) ids2).2.length ≤ 1)
    ∧ (∀ ids2 : List Nat, (stopStep (startMany (none, []) ids2)).2 = []) := by
  refine ⟨startMany_fixed t active ids, ?_, ?_⟩
  · intro ids2
    cases ids2 with
    | nil => simp [startMany]
    | cons i rest =>
      rw [startMany, List.foldl_cons]
      have h0 : startStep ((none : Option Nat), ([] : List Nat)) i = (some i, [i]) :=
        rfl
      rw [h0]
      have hfix := startMany_fixed i [i] rest
      rw [startMany] at hfix
      rw [hfix]
      simp
  · intro ids2
    cases ids2 with
    | nil => rfl
    | cons i rest =>
      rw [startMany, List.foldl_cons]
      have h0 : startStep ((none : Option Nat), ([] : List Nat)) i = (some i, [i]) :=
        rfl
      rw [h0]
      have hfix := startMany_fixed i [i] rest
      rw [startMany] at hfix
      rw [hfix]
      simp [stopStep]

/-- C2: re-applying a manifest that was just applied performs zero
cache-set and zero cache-delete calls (empty trace) and leaves the
signature store at the same value; more generally, a signature present
both in the previously known set and in the incoming manifest is never
the target of a cache-set during that application, whatever document it
carries. -/
theorem updateManifest_second_application_noop (last : SignatureStore)
    (m : OperationManifest) (repl : SignatureStore) (t : List CacheOp)
    (h : updateManifest last m = Except.ok (repl, t)) :
    updateManifest repl m = Except.ok (repl, [])
    ∧ ∀ s, s ∈ last → s ∈ manifestSignatures m →
        ∀ d, CacheOp.set (getCacheKey s) d ∉ t := by
  obtain ⟨ops, hops, hv, hrepl, ht⟩ := updateManifest_ok_inv h
  constructor
  · have he := updateManifest_ok_eq repl m ops hops hv
    have hadd : addTrace repl ops = [] := by
      apply addTrace_eq_nil
      intro o ho
      rw [hrepl]
      exact mem_replOf.mpr (Or.inr (List.mem_map.mpr ⟨o, ho, rfl⟩))
    have hdel : delTrace repl ops = [] := by
      apply delTrace_eq_nil
      intro s hs
      rw [hrepl] at hs
      rcases mem_replOf.mp hs with h0 | h1
      · cases h0
      · exact h1
    rw [he, hadd, hdel, hrepl]
    rfl
  · intro s hsl hsm d hmem
    rw [ht] at hmem
    rcases List.mem_append.mp hmem with ha | hd
    · obtain ⟨o, ho, hnl, heq⟩ := mem_addTrace.mp ha
      injection heq with hk hdoc
      have hso : s = o.signature := getCacheKey_injective hk
      rw [hso] at hsl
      exact hnl hsl
    · obtain ⟨x, _, _, heq⟩ := mem_delTrace.mp hd
      cases heq

/-- C2 witness: applying `exManifestA` from a fresh store and then again
on the resulting store issues no cache call the second time. -/
theorem updateManifest_second_application_noop_witness :
    updateManifest ["a"] exManifestA = Except.ok (["a"], [])
    ∧ ∀ s, s ∈ ([] : SignatureStore) → s ∈ manifestSignatures exManifestA →
        ∀ d, CacheOp.set (getCacheKey s) d ∉ [CacheOp.set "apq:a" "docA"] :=
  updateManifest_second_application_noop [] exManifestA ["a"]
    [CacheOp.set "apq:a" "docA"] rfl

/-- C6: a 304 Not Modified response makes `tryUpdate` return `false`
having issued no cache call and changed nothing but the diagnostic
check counter — `lastOperationSignatures` and `lastSuccessfulETag` keep
their values — and the enclosing `checkForUpdate` resolves without
error with an empty cache trace. -/
theorem tryUpdate_not_modified (st : TryState) (r : HttpResponse)
    (cst : CheckState) (now : Int) (pid : Nat)
    (h304 : r.status = 304) (hfresh : cst.requestInFlight = none)
    (hinner : cst.inner = st) :
    tryUpdate st (FetchOutcome.success r) =
      ⟨{ st with timesChecked := st.timesChecked + 1 }, [], Except.ok false⟩
    ∧ (checkForUpdate cst now pid (FetchOutcome.success r)).trace = []
    ∧ (checkForUpdate cst now pid (FetchOutcome.success r)).result =
        CheckResult.completed (Except.ok false)
    ∧ (checkForUpdate cst now pid
        (FetchOutcome.success r)).state.inner.lastOperationSignatures =
        st.lastOperationSignatures
    ∧ (checkForUpdate cst now pid
        (FetchOutcome.success r)).state.inner.lastSuccessfulETag =
        st.lastSuccessfulETag := by
  have htry : tryUpdate st (FetchOutcome.success r) =
      ⟨{ st with timesChecked := st.timesChecked + 1 }, [], Except.ok false⟩ := by
    rw [tryUpdate, if_pos h304]
  refine ⟨htry, ?_, ?_, ?_, ?_⟩
  · rw [checkForUpdate_fresh_trace cst now pid _ hfresh, hinner, htry]
  · rw [checkForUpdate_fresh_result cst now pid _ hfresh, hinner, htry]
  · rw [checkForUpdate_fresh_inner cst now pid _ hfresh, hinner, htry]
  · rw [checkForUpdate_fresh_inner cst now pid _ hfresh, hinner, htry]

/-- C6 witness: the 304 path evaluated on a concrete state that knows
signature `"a"` and holds an ETag token. -/
theorem tryUpdate_not_modified_witness :
    tryUpdate ⟨2, some "tok", ["a"]⟩ (FetchOutcome.success exNotModifiedResponse) =
      ⟨⟨3, some "tok", ["a"]⟩, [], Except.ok false⟩
    ∧ (checkForUpdate ⟨none, some 11, some 3, ⟨2, some "tok", ["a"]⟩⟩ 99 4
        (FetchOutcome.success exNotModifiedResponse)).trace = []
    ∧ (checkForUpdate ⟨none, some 11, some 3, ⟨2, some "tok", ["a"]⟩⟩ 99 4
        (FetchOutcome.success exNotModifiedResponse)).result =
        CheckResult.completed (Except.ok false)
    ∧ (checkForUpdate ⟨none, some 11, some 3, ⟨2, some "tok", ["a"]⟩⟩ 99 4
        (FetchOutcome.success exNotModifiedResponse)).state.inner.lastOperationSignatures
        = ["a"]
    ∧ (checkForUpdate ⟨none, some 11, some 3, ⟨2, some "tok", ["a"]⟩⟩ 99 4
        (FetchOutcome.success exNotModifiedResponse)).state.inner.lastSuccessfulETag
        = some "tok" :=
  tryUpdate_not_modified ⟨2, some "tok", ["a"]⟩ exNotModifiedResponse
    ⟨none, some 11, some 3, ⟨2, some "tok", ["a"]⟩⟩ 99 4 rfl rfl rfl

/-- C7 counterexample: the code stores `JSON.parse(receivedETag)`, not
the raw header: for the received header text consisting of the five
characters quote-a-b-c-quote, the stored token is the three-character
string `abc`, which differs from the raw header string. -/
theorem tryUpdate_etag_not_raw :
    (tryUpdate ⟨0, none, []⟩
        (FetchOutcome.success exETagResponse)).state.lastSuccessfulETag = some "abc"
    ∧ exETagResponse.etagHeader = some "\"abc\""
    ∧ (some "abc" : Option String) ≠ some "\"abc\"" :=
  ⟨rfl, rfl, by decide⟩

/-- C7 (amended): on a successful fetch carrying a truthy validator
header, the stored ETag token is the JSON-decoding of the raw header
string (for a JSON string-literal header, its unquoted content), used
thereafter only as the next conditional-request input; it equals the raw
header only when the two coincide. -/
theorem tryUpdate_stores_parsed_etag (st : TryState) (r : HttpResponse)
    (pr : SignatureStore × List CacheOp) (tok : String)
    (h304 : r.status ≠ 304) (hok : r.respOk = true)
    (hct : ¬(isTruthy r.contentType = true ∧ r.contentType ≠ some "application/json"))
    (hup : updateManifest st.lastOperationSignatures r.bodyManifest = Except.ok pr)
    (het : isTruthy r.etagHeader = true)
    (hparse : jsonParseETag (r.etagHeader.getD "") = Except.ok tok) :
    (tryUpdate st (FetchOutcome.success r)).state.lastSuccessfulETag = some tok
    ∧ (tryUpdate st (FetchOutcome.success r)).result = Except.ok true := by
  obtain ⟨repl, trace⟩ := pr
  have hres : tryUpdate st (FetchOutcome.success r) =
      ⟨⟨st.timesChecked + 1, some tok, repl⟩, trace, Except.ok true⟩ := by
    rw [tryUpdate, if_neg h304, if_neg (not_not_intro hok), if_neg hct, hup]
    dsimp only
    rw [if_pos het, hparse]
  rw [hres]
  exact ⟨rfl, rfl⟩

/-- C7 witness: the amended storage behaviour evaluated on the concrete
quoted header. -/
theorem tryUpdate_stores_parsed_etag_witness :
    (tryUpdate ⟨0, none, []⟩
        (FetchOutcome.success exETagResponse)).state.lastSuccessfulETag = some "abc"
    ∧ (tryUpdate ⟨0, none, []⟩
        (FetchOutcome.success exETagResponse)).result = Except.ok true :=
  tryUpdate_stores_parsed_etag ⟨0, none, []⟩ exETagResponse ([], []) "abc"
    (by decide) rfl (by decide) rfl rfl rfl

/-- C9: an invocation of `checkForUpdate` that begins a new check always
ends with the in-flight marker cleared, clears it before resolving or
re-raising (event order: install, clear, terminal), re-throws the
check's error to this caller (the result is exactly the check's
outcome), and leaves a state from which any subsequent call starts a
fresh check rather than joining. -/
theorem checkForUpdate_clears_marker (st : CheckState) (now : Int) (pid : Nat)
    (outcome : FetchOutcome) (h : st.requestInFlight = none) :
    (checkForUpdate st now pid outcome).state.requestInFlight = none
    ∧ (checkForUpdate st now pid outcome).events =
        [CheckEvent.markerInstalled pid, CheckEvent.markerCleared,
          terminalEvent (tryUpdate st.inner outcome).result]
    ∧ (checkForUpdate st now pid outcome).result =
        CheckResult.completed (tryUpdate st.inner outcome).result
    ∧ ∀ (now2 : Int) (pid2 : Nat) (o2 : FetchOutcome) (p : Nat),
        (checkForUpdate (checkForUpdate st now pid outcome).state now2 pid2
          o2).result ≠ CheckResult.joinedResolvedVoid p := by
  refine ⟨checkForUpdate_fresh_inflight st now pid outcome h,
    checkForUpdate_fresh_events st now pid outcome h,
    checkForUpdate_fresh_result st now pid outcome h, ?_⟩
  intro now2 pid2 o2 p
  exact checkForUpdate_not_joined _ now2 pid2 o2
    (checkForUpdate_fresh_inflight st now pid outcome h) p

/-- C9 witness: a failing check from a fresh agent still clears the
marker before re-raising, and the next call is never suppressed. -/
theorem checkForUpdate_clears_marker_witness :
    (checkForUpdate initialAgentState 0 1
        (FetchOutcome.failure "boom")).state.requestInFlight = none
    ∧ (checkForUpdate initialAgentState 0 1 (FetchOutcome.failure "boom")).events =
        [CheckEvent.markerInstalled 1, CheckEvent.markerCleared,
          terminalEvent (tryUpdate initialAgentState.inner
            (FetchOutcome.failure "boom")).result]
    ∧ (checkForUpdate initialAgentState 0 1 (FetchOutcome.failure "boom")).result =
        CheckResult.completed (tryUpdate initialAgentState.inner
          (FetchOutcome.failure "boom")).result
    ∧ ∀ (now2 : Int) (pid2 : Nat) (o2 : FetchOutcome) (p : Nat),
        (checkForUpdate (checkForUpdate initialAgentState 0 1
          (FetchOutcome.failure "boom")).state now2 pid2 o2).result ≠
          CheckResult.joinedResolvedVoid p :=
  checkForUpdate_clears_marker initialAgentState 0 1 (FetchOutcome.failure "boom")
    rfl

/-- C1: for valid manifests M1 then M2 applied in sequence from a fresh
agent, the set of `"apq:"` keys the agent has written and not deleted
(the live keys of the cache after both traces, starting empty) is
exactly `getCacheKey` of the signatures of M2; during the second round
every signature of M2 absent from the known set is cache-set, every
known signature absent from M2 is cache-deleted, every touched key
belongs to one of those two groups, and the known-signature store is
replaced by exactly the signatures of M2. -/
theorem updateManifest_sequence_cache_exact (m1 m2 : OperationManifest)
    (s1 s2 : SignatureStore) (t1 t2 : List CacheOp)
    (h1 : updateManifest [] m1 = Except.ok (s1, t1))
    (h2 : updateManifest s1 m2 = Except.ok (s2, t2)) :
    (∀ k, applyTrace emptyCache (t1 ++ t2) k ≠ none ↔
        ∃ s, s ∈ manifestSignatures m2 ∧ k = getCacheKey s)
    ∧ (∀ s, s ∈ manifestSignatures m2 → s ∉ s1 →
        ∃ d, CacheOp.set (getCacheKey s) d ∈ t2)
    ∧ (∀ s, s ∈ s1 → s ∉ manifestSignatures m2 →
        CacheOp.del (getCacheKey s) ∈ t2)
    ∧ (∀ op ∈ t2, ∃ s, CacheOp.key op = getCacheKey s ∧
        ((s ∈ manifestSignatures m2 ∧ s ∉ s1) ∨
          (s ∈ s1 ∧ s ∉ manifestSignatures m2)))
    ∧ (∀ s, s ∈ s2 ↔ s ∈ manifestSignatures m2) := by
  obtain ⟨ops1, hops1, hv1, hrepl1, ht1⟩ := updateManifest_ok_inv h1
  obtain ⟨ops2, hops2, hv2, hrepl2, ht2⟩ := updateManifest_ok_inv h2
  have hsig2 : manifestSignatures m2 = ops2.map Operation.signature := by
    unfold manifestSignatures
    rw [hops2]
    rfl
  have hmem1 : ∀ s, s ∈ s1 ↔ s ∈ ops1.map Operation.signature := by
    intro s
    rw [hrepl1, mem_replOf]
    simp
  refine ⟨?_, ?_, ?_, ?_, ?_⟩
  · intro k
    rw [applyTrace_append, ht1, ht2, hsig2]
    have hc0 : ∀ q, emptyCache q ≠ none ↔
        ∃ s, s ∈ ([] : SignatureStore) ∧ q = getCacheKey s := by
      intro q
      simp [emptyCache]
    have hc1 : ∀ q, applyTrace emptyCache
        (addTrace [] ops1 ++ delTrace [] ops1) q ≠ none ↔
        ∃ s, s ∈ s1 ∧ q = getCacheKey s := by
      intro q
      rw [reconcile_exact emptyCache hc0 q]
      constructor
      · rintro ⟨s, hs, rfl⟩
        exact ⟨s, (hmem1 s).mpr hs, rfl⟩
      · rintro ⟨s, hs, rfl⟩
        exact ⟨s, (hmem1 s).mp hs, rfl⟩
    exact reconcile_exact _ hc1 k
  · intro s hs hns
    rw [hsig2] at hs
    obtain ⟨o, ho, hos⟩ := List.mem_map.mp hs
    refine ⟨o.document, ?_⟩
    rw [ht2]
    apply List.mem_append.mpr
    left
    apply mem_addTrace.mpr
    refine ⟨o, ho, ?_, ?_⟩
    · rw [hos]
      exact hns
    · rw [hos]
  · intro s hs hns
    rw [ht2]
    apply List.mem_append.mpr
    right
    apply mem_delTrace.mpr
    refine ⟨s, hs, ?_, rfl⟩
    rw [← hsig2]
    exact hns
  · intro op hop
    rw [ht2] at hop
    rcases List.mem_append.mp hop with ha | hd
    · obtain ⟨o, ho, hnl, rfl⟩ := mem_addTrace.mp ha
      refine ⟨o.signature, rfl, Or.inl ⟨?_, hnl⟩⟩
      rw [hsig2]
      exact List.mem_map.mpr ⟨o, ho, rfl⟩
    · obtain ⟨s, hs, hns, rfl⟩ := mem_delTrace.mp hd
      refine ⟨s, rfl, Or.inr ⟨hs, ?_⟩⟩
      rw [hsig2]
      exact hns
  · intro s
    rw [hrepl2, mem_replOf, hsig2]
    simp

/-- C1 witness: the spec's concrete scenario — `{a: docA}` then
`{b: docB}` — evaluated end to end: final live key set is exactly
`{"apq:b"}`. -/
theorem updateManifest_sequence_cache_exact_witness :
    (∀ k, applyTrace emptyCache
        ([CacheOp.set "apq:a" "docA"] ++
          [CacheOp.set "apq:b" "docB", CacheOp.del "apq:a"]) k ≠ none ↔
        ∃ s, s ∈ manifestSignatures exManifestB ∧ k = getCacheKey s)
    ∧ (∀ s, s ∈ manifestSignatures exManifestB → s ∉ ["a"] →
        ∃ d, CacheOp.set (getCacheKey s) d ∈
          [CacheOp.set "apq:b" "docB", CacheOp.del "apq:a"])
    ∧ (∀ s, s ∈ ["a"] → s ∉ manifestSignatures exManifestB →
        CacheOp.del (getCacheKey s) ∈
          [CacheOp.set "apq:b" "docB", CacheOp.del "apq:a"])
    ∧ (∀ op ∈ [CacheOp.set "apq:b" "docB", CacheOp.del "apq:a"],
        ∃ s, CacheOp.key op = getCacheKey s ∧
          ((s ∈ manifestSignatures exManifestB ∧ s ∉ ["a"]) ∨
            (s ∈ ["a"] ∧ s ∉ manifestSignatures exManifestB)))
    ∧ (∀ s, s ∈ ["b"] ↔ s ∈ manifestSignatures exManifestB) :=
  updateManifest_sequence_cache_exact exManifestA exManifestB ["a"] ["b"]
    [CacheOp.set "apq:a" "docA"] [CacheOp.set "apq:b" "docB", CacheOp.del "apq:a"]
    rfl rfl

end OperationRegistry
